import Mathlib

/-!
Verification of the terraform provisioner driver
(`src/provisioner/terraform/provision.go`) against its specification.

The Go code is shallowly embedded: the pure computations (argument
construction, parameter classification, log-level conversion, the
structured-log relay step, the dependency-graph extraction and the
resource/agent correlation) become Lean functions; the effectful steps
of `Provision`, `parseTerraformPlan` and `parseTerraformApply`
(`os.ReadFile`, `terraform.ShowStateFile`, `terraform.Graph`,
`cmd.Run`) are passed in as explicit `Except`/`Option` results, so the
surrounding control flow is embedded faithfully as a pure function of
those outcomes.  Go maps are embedded as association lists with
overwrite-on-insert; Go `nil` slices and proto3 default fields are
embedded as `[]` / `""` (proto3 draws no wire-level distinction between
a nil and an empty repeated field).
-/

namespace Coder

/-- `proto.LogLevel`. -/
inductive LogLevel
  | trace
  | debug
  | info
  | warn
  | error
deriving DecidableEq, Repr

/-- `proto.WorkspaceTransition`. -/
inductive WorkspaceTransition
  | start
  | stop
  | destroy
deriving DecidableEq, Repr

/-- `proto.ParameterDestination`: the two schemes handled by the `switch`
in `Provision`, plus a catch-all for every other enum value (the
`default` case). -/
inductive ParameterDestination
  | environmentVariable
  | provisionerVariable
  | unrecognized (value : Nat)
deriving DecidableEq, Repr

/-- `proto.ParameterValue` (the fields `Provision` reads). -/
structure ParameterValue where
  name : String
  value : String
  destinationScheme : ParameterDestination
deriving DecidableEq, Repr

/-- The `proto.Agent_Token` / `proto.Agent_InstanceId` oneof. -/
inductive AgentAuth
  | token (token : String)
  | instanceId (instanceId : String)
deriving DecidableEq, Repr

/-- `proto.Agent` (the fields the provisioner fills in). -/
structure Agent where
  id : String := ""
  env : List (String × String) := []
  startupScript : String := ""
  auth : AgentAuth := .token ""
deriving DecidableEq, Repr

/-- `proto.Resource`. -/
structure Resource where
  name : String
  type : String
  agent : Option Agent
deriving DecidableEq, Repr

/-- `proto.Provision_Complete`.  `state`/`error` default to `""` and
`resources` to `[]`, matching proto3 field defaults. -/
structure Complete where
  state : String := ""
  error : String := ""
  resources : List Resource := []
deriving DecidableEq, Repr

/-- `terraformProvisionLogDiagnostic`. -/
structure TerraformProvisionLogDiagnostic where
  severity : String
  summary : String
  detail : String
deriving DecidableEq, Repr

/-- `terraformProvisionLog`. -/
structure TerraformProvisionLog where
  level : String
  message : String
  diagnostic : Option TerraformProvisionLogDiagnostic
deriving DecidableEq, Repr

/-- One character of `strings.ToLower` (Go's Unicode simple case
mapping), embedded exactly on every code point whose lowercase is
ASCII: the letters `A`–`Z`, U+0130 (LATIN CAPITAL LETTER I WITH DOT
ABOVE, simple mapping `i`) and U+212A (KELVIN SIGN, mapping `k`) — no
other code point has an ASCII simple lowercase in the Unicode tables
Go uses.  Every remaining character is left unchanged where Go may
produce a different, still non-ASCII, character; since the sole
consumer compares the lowercased string against the five ASCII
keywords, a position where both results are non-ASCII fails the
comparison either way, so the embedding and Go agree on every
comparison this program makes. -/
def lowerChar (c : Char) : Char :=
  if 'A' ≤ c ∧ c ≤ 'Z' then Char.ofNat (c.toNat + 32)
  else if c.toNat = 0x130 then 'i'
  else if c.toNat = 0x212A then 'k'
  else c

/-- `strings.ToLower`, per-character as described at `lowerChar`. -/
def toLower (s : String) : String :=
  ⟨s.data.map lowerChar⟩

/-- `convertTerraformLogLevel`: lowercases the level string and maps the
five recognized names; anything else is an error. -/
def convertTerraformLogLevel (logLevel : String) : Except String LogLevel :=
  match toLower logLevel with
  | "trace" => .ok .trace
  | "debug" => .ok .debug
  | "info" => .ok .info
  | "warn" => .ok .warn
  | "error" => .ok .error
  | _ => .error ("invalid log level " ++ logLevel)

/-- One iteration of the structured-log relay loop in `Provision`
(lines 137–174): a decoded record emits its message at the converted
level, then, when a diagnostic is attached and its severity converts,
the diagnostic detail at that severity; an unconvertible level (or
severity) emits nothing further for this record (`continue`). -/
def relayLogRecord (log : TerraformProvisionLog) : List (LogLevel × String) :=
  match convertTerraformLogLevel log.level with
  | .error _ => []
  | .ok logLevel =>
    (logLevel, log.message) ::
      match log.diagnostic with
      | none => []
      | some diagnostic =>
        match convertTerraformLogLevel diagnostic.severity with
        | .error _ => []
        | .ok severityLevel => [(severityLevel, diagnostic.detail)]

/-- The structured-log relay over a whole stream of decoded records. -/
def relayLogStream (logs : List TerraformProvisionLog) : List (LogLevel × String) :=
  logs.flatMap relayLogRecord

/-- The parameter-classification loop of `Provision` (lines 118–128):
environment-scheme values are appended to `env`, provisioner-scheme
values to `vars`, any other scheme aborts with an error. -/
def classifyParameters (params : List ParameterValue) (env : List String)
    (vars : List String) : Except String (List String × List String) :=
  match params with
  | [] => .ok (env, vars)
  | param :: rest =>
    match param.destinationScheme with
    | .environmentVariable =>
      classifyParameters rest (env ++ [param.name ++ "=" ++ param.value]) vars
    | .provisionerVariable =>
      classifyParameters rest env (vars ++ [param.name ++ "=" ++ param.value])
    | .unrecognized _ =>
      .error ("unsupported parameter type for " ++ param.name)

/-- The argument-list construction of `Provision` (lines 177–203):
`plan`/`apply` base arguments, a `-destroy` flag on a DESTROY
transition, then one `-var` pair per provisioner variable. -/
def buildArgs (dryRun : Bool) (transition : WorkspaceTransition)
    (planfilePath : String) (vars : List String) : List String :=
  let args :=
    if dryRun then
      ["plan", "-no-color", "-input=false", "-json", "-refresh=true",
        "-out=" ++ planfilePath]
    else
      ["apply", "-no-color", "-auto-approve", "-input=false", "-json",
        "-refresh=true"]
  let args :=
    if transition = .destroy then args ++ ["-destroy"] else args
  args ++ vars.flatMap (fun v => ["-var", v])

/-- Formats a parameter the way both branches of the classification
switch do (`fmt.Sprintf("%s=%s", param.Name, param.Value)`). -/
def formatParameter (param : ParameterValue) : String :=
  param.name ++ "=" ++ param.value

/-- The environment and argument list handed to the engine process:
parameters are classified first, and only on success are the arguments
assembled (an unsupported scheme returns before `exec.CommandContext`
is ever reached). -/
def engineInvocation (dryRun : Bool) (transition : WorkspaceTransition)
    (planfilePath : String) (baseEnv : List String)
    (params : List ParameterValue) :
    Except String (List String × List String) :=
  match classifyParameters params baseEnv [] with
  | .error e => .error e
  | .ok (env, vars) => .ok (env, buildArgs dryRun transition planfilePath vars)

/-- True for the two destination schemes the `switch` handles. -/
def recognizedScheme (scheme : ParameterDestination) : Bool :=
  match scheme with
  | .environmentVariable => true
  | .provisionerVariable => true
  | .unrecognized _ => false

/-- A node of the analysed graphviz graph: `gographviz.Node` with its
name and attribute map (attributes as an association list). -/
structure GraphNode where
  name : String
  attrs : List (String × String)
deriving DecidableEq, Repr

/-- A directed edge of the analysed graph. -/
structure GraphEdge where
  src : String
  dst : String
deriving DecidableEq, Repr

/-- The analysed graph (`gographviz.Graph`): its node list
(`graph.Nodes.Nodes`) and edge list.  The library's derived maps
(`Nodes.Lookup`, `Edges.SrcToDsts`, `Edges.DstToSrcs`) are embedded
below as functions of these two lists. -/
structure Graph where
  nodes : List GraphNode
  edges : List GraphEdge
deriving DecidableEq, Repr

/-- `strings.Trim(label, "\x22")`: removes every leading and trailing
double-quote character. -/
def trimQuotes (s : String) : String :=
  ⟨((s.toList.dropWhile (fun c => c = '"')).reverse.dropWhile
      (fun c => c = '"')).reverse⟩

/-- The distinct destination names of edges leaving `name`: the key set
of `graph.Edges.SrcToDsts[name]` (a Go map keyed by destination, so
each destination occurs once; its iteration order is unspecified and
only membership is relied on below). -/
def edgeDestinations (g : Graph) (name : String) : List String :=
  ((g.edges.filter (fun e => e.src = name)).map (fun e => e.dst)).dedup

/-- The distinct source names of edges entering `name`: the key set of
`graph.Edges.DstToSrcs[name]`. -/
def edgeSources (g : Graph) (name : String) : List String :=
  ((g.edges.filter (fun e => e.dst = name)).map (fun e => e.src)).dedup

/-- The body of the inner loop of `findDirectDependencies`: look the
destination up in `graph.Nodes.Lookup`, skip it when absent or
unlabeled, otherwise take its quote-trimmed label. -/
def dependencyLabel (g : Graph) (destination : String) : Option String :=
  match g.nodes.find? (fun n => n.name = destination) with
  | none => none
  | some dependencyNode =>
    match dependencyNode.attrs.lookup "label" with
    | none => none
    | some label => some (trimQuotes label)

/-- Go map assignment `m[key] = val`: overwrite an existing entry or
append a new one. -/
def mapInsert {α : Type} (m : List (String × α)) (key : String) (val : α) :
    List (String × α) :=
  if m.any (fun p => p.1 = key) then
    m.map (fun p => if p.1 = key then (key, val) else p)
  else m ++ [(key, val)]

/-- The labels of all one-edge neighbors of `node` (outbound
destinations first, then inbound sources, exactly as the Go loop walks
`SrcToDsts` then `DstToSrcs`), unlabeled or unknown neighbors
skipped. -/
def nodeDependencies (g : Graph) (node : GraphNode) : List String :=
  (edgeDestinations g node.name ++ edgeSources g node.name).filterMap
    (dependencyLabel g)

/-- The map entry one labeled node contributes: its quote-trimmed
label, keyed to its neighbor labels (none for an unlabeled node). -/
def labeledEntry (g : Graph) (node : GraphNode) :
    Option (String × List String) :=
  (node.attrs.lookup "label").map
    (fun label => (trimQuotes label, nodeDependencies g node))

/-- The node loop of `findDirectDependencies`: for every labeled node,
record its quote-trimmed label against its neighbor labels. -/
def extractDirectDependencies (g : Graph) : List (String × List String) :=
  g.nodes.foldl
    (fun direct node =>
      match node.attrs.lookup "label" with
      | none => direct
      | some label => mapInsert direct (trimQuotes label) (nodeDependencies g node))
    []

/-- `findDirectDependencies`: the raw graph text is parsed by the
graphviz library (its outcome is the `Except` argument here, an
`.error` standing for a `ParseString`/`NewAnalysedGraph` failure); a
parse failure is returned as an error, otherwise the dependency map is
extracted. -/
def findDirectDependencies (rawGraph : Except String Graph) :
    Except String (List (String × List String)) :=
  match rawGraph with
  | .error e => .error ("parse graph: " ++ e)
  | .ok graph => .ok (extractDirectDependencies graph)

/-- A row of the flat resource listing (`plan.PlannedValues.RootModule
.Resources` or `state.Values.RootModule.Resources`): the two fields the
correlation loops read. -/
structure SourceResource where
  type : String
  name : String
deriving DecidableEq, Repr

/-- `strings.Join([]string{resource.Type, resource.Name}, ".")`. -/
def resourceKey (r : SourceResource) : String :=
  r.type ++ "." ++ r.name

/-- The dependency scan of both correlation loops: `agent` is the first
successful agent-table lookup, and stays unset (`nil`) when every
lookup misses. -/
def firstAgentMatch (deps : List String) (agents : List (String × Agent)) :
    Option Agent :=
  match deps with
  | [] => none
  | dep :: rest =>
    match agents.lookup dep with
    | some agent => some agent
    | none => firstAgentMatch rest agents

/-- How one listing row is turned into at most one output resource. -/
def correlateStep (depMap : List (String × List String))
    (agents : List (String × Agent)) (resource : SourceResource) :
    Option Resource :=
  if resource.type = "coder_agent" then none
  else
    match depMap.lookup (resourceKey resource) with
    | none => none
    | some resourceNode =>
      some { name := resource.name, type := resource.type,
             agent := firstAgentMatch resourceNode agents }

/-- The resource loop shared verbatim by `parseTerraformPlan`
(lines 310–334) and `parseTerraformApply` (lines 400–424): agent-typed
rows are skipped, rows whose key misses the dependency map are dropped,
and kept rows carry the first matching agent. -/
def correlateResources (listing : List SourceResource)
    (depMap : List (String × List String))
    (agents : List (String × Agent)) : List Resource :=
  listing.foldl
    (fun resources resource =>
      match correlateStep depMap agents resource with
      | none => resources
      | some out => resources ++ [out])
    []

/-- A `tfjson.Expression` constant value as the plan parser inspects it:
the two type assertions that can succeed, and everything else. -/
inductive ConstantValue
  | str (s : String)
  | strMap (m : List (String × String))
  | other
deriving DecidableEq, Repr

/-- A resource of `plan.Config.RootModule.Resources`: type, address and
expression map. -/
structure ConfigResource where
  type : String
  address : String
  expressions : List (String × ConstantValue)
deriving DecidableEq, Repr

/-- The agent built from a plan config resource (lines 285–307): token
auth with an empty token by default; `env` and `startup_script`
constant values are taken when their type assertions hold; a present
`instance_id` expression switches auth to an instance id with an empty
placeholder value. -/
def buildPlanAgent (resource : ConfigResource) : Agent :=
  let agent : Agent := { auth := .token "" }
  let agent :=
    match resource.expressions.lookup "env" with
    | some (.strMap env) => { agent with env := env }
    | _ => agent
  let agent :=
    match resource.expressions.lookup "startup_script" with
    | some (.str startupScript) => { agent with startupScript := startupScript }
    | _ => agent
  if (resource.expressions.lookup "instance_id").isSome then
    { agent with auth := .instanceId "" }
  else agent

/-- The agent loop of `parseTerraformPlan`: every `coder_agent` config
resource is stored under its address. -/
def buildPlanAgents (resources : List ConfigResource) :
    List (String × Agent) :=
  resources.foldl
    (fun agents resource =>
      if resource.type = "coder_agent" then
        mapInsert agents resource.address (buildPlanAgent resource)
      else agents)
    []

/-- `agentAttributes`, the mapstructure target of the apply parser. -/
structure AgentAttributes where
  id : String := ""
  token : String := ""
  instanceId : String := ""
  env : List (String × String) := []
  startupScript : String := ""
deriving DecidableEq, Repr

/-- A resource of `state.Values.RootModule.Resources`.  The
`attributeValues` field carries the outcome of
`mapstructure.Decode(resource.AttributeValues, &attrs)` for this
resource (the decode itself is the external mapstructure library). -/
structure StateResource where
  type : String
  name : String
  attributeValues : Except String AgentAttributes
deriving Repr

/-- The agent built from decoded state attributes (lines 383–395):
token auth from the `token` attribute, overridden by instance-id auth
exactly when `instance_id` is non-empty. -/
def buildApplyAgent (attrs : AgentAttributes) : Agent :=
  let agent : Agent :=
    { id := attrs.id, env := attrs.env, startupScript := attrs.startupScript,
      auth := .token attrs.token }
  if attrs.instanceId ≠ "" then
    { agent with auth := .instanceId attrs.instanceId }
  else agent

/-- The agent loop of `parseTerraformApply` (lines 374–398): every
`coder_agent` state resource is decoded (a decode failure is fatal) and
stored under `type.name`. -/
def buildApplyAgents (resources : List StateResource)
    (agents : List (String × Agent)) :
    Except String (List (String × Agent)) :=
  match resources with
  | [] => .ok agents
  | resource :: rest =>
    if resource.type = "coder_agent" then
      match resource.attributeValues with
      | .error e => .error ("decode agent attributes: " ++ e)
      | .ok attrs =>
        buildApplyAgents rest
          (mapInsert agents (resource.type ++ "." ++ resource.name)
            (buildApplyAgent attrs))
    else buildApplyAgents rest agents

/-- `parseTerraformPlan`, with the effectful steps (`ShowPlanFile`, the
`terraform graph` command plus its parse) passed in as outcomes.  The
plan file carries the config resources (agent definitions) and the
planned-values resource listing. -/
structure PlanFile where
  configResources : List ConfigResource
  plannedResources : List SourceResource
deriving DecidableEq, Repr

/-- `parseTerraformPlan` (lines 262–343). -/
def parseTerraformPlan (planShow : Except String PlanFile)
    (rawGraph : Except String Graph) : Except String Complete :=
  match planShow with
  | .error e => .error ("show terraform plan file: " ++ e)
  | .ok plan =>
    match findDirectDependencies rawGraph with
    | .error e => .error ("find dependencies: " ++ e)
    | .ok resourceDependencies =>
      .ok { resources := correlateResources plan.plannedResources
              resourceDependencies (buildPlanAgents plan.configResources) }

/-- `parseTerraformApply` (lines 345–435), with the effectful steps
passed in as outcomes: `os.ReadFile` of the state file, `ShowStateFile`
(whose `Values` section is the `Option`), and the `terraform graph`
command plus its parse.  When the state has no values section the
response carries the verbatim state bytes and an empty resource list,
and neither the graph nor any attribute decode is consulted. -/
def parseTerraformApply (statefileRead : Except String String)
    (stateShow : Except String (Option (List StateResource)))
    (rawGraph : Except String Graph) : Except String Complete :=
  match statefileRead with
  | .error e => .error ("read file: " ++ e)
  | .ok statefileContent =>
    match stateShow with
    | .error e => .error ("show state file: " ++ e)
    | .ok none => .ok { state := statefileContent, resources := [] }
    | .ok (some stateResources) =>
      match findDirectDependencies rawGraph with
      | .error e => .error ("find dependencies: " ++ e)
      | .ok resourceDependencies =>
        match buildApplyAgents stateResources [] with
        | .error e => .error e
        | .ok agents =>
          .ok { state := statefileContent,
                resources := correlateResources
                  (stateResources.map (fun r => { type := r.type, name := r.name }))
                  resourceDependencies agents }

/-- The tail of `Provision` (lines 217–259): how the `cmd.Run` outcome,
the shutdown signal and the state-file read combine into either a
`Complete` response or a propagated fatal error.  `runError` is the
`cmd.Run()` result (`some msg` for a failure), `parseResult` the
outcome of the dry-run/real-run artifact parse used when the process
succeeded. -/
def provisionRunOutcome (dryRun : Bool) (shutdownFired : Bool)
    (runError : Option String) (statefileRead : Except String String)
    (parseResult : Except String Complete) : Except String Complete :=
  match runError with
  | some errorMessage =>
    if dryRun then
      if shutdownFired then .ok { error := errorMessage }
      else .error ("plan terraform: " ++ errorMessage)
    else
      match statefileRead with
      | .error e => .error ("read file: " ++ e)
      | .ok statefileContent =>
        .ok { state := statefileContent, error := errorMessage }
  | none => parseResult

/-- Inserting a key absent from the map appends a new entry. -/
theorem mapInsert_fresh {α : Type} (m : List (String × α)) (key : String)
    (val : α) (h : ∀ p ∈ m, p.1 ≠ key) :
    mapInsert m key val = m ++ [(key, val)] := by
  have hany : m.any (fun p => p.1 = key) = false := by
    rw [List.any_eq_false]
    intro p hp
    simpa using h p hp
  simp [mapInsert, hany]

/-- The node fold of the extractor, run from an accumulator whose keys
are disjoint from the upcoming labels, appends one entry per labeled
node. -/
theorem extract_foldl_eq (g : Graph) :
    ∀ (nodes : List GraphNode) (acc : List (String × List String)),
      (nodes.filterMap
        (fun n => (n.attrs.lookup "label").map trimQuotes)).Nodup →
      (∀ p ∈ acc, ∀ n ∈ nodes, ∀ l, n.attrs.lookup "label" = some l →
        p.1 ≠ trimQuotes l) →
      nodes.foldl
        (fun direct node =>
          match node.attrs.lookup "label" with
          | none => direct
          | some label =>
            mapInsert direct (trimQuotes label) (nodeDependencies g node))
        acc =
      acc ++ nodes.filterMap (labeledEntry g) := by
  intro nodes
  induction nodes with
  | nil => intro acc _ _; simp
  | cons n rest ih =>
    intro acc hnodup hacc
    cases hlabel : n.attrs.lookup "label" with
    | none =>
      have hnodup' :
          (rest.filterMap
            (fun n => (n.attrs.lookup "label").map trimQuotes)).Nodup := by
        simpa [List.filterMap_cons, hlabel] using hnodup
      have hacc' : ∀ p ∈ acc, ∀ n' ∈ rest, ∀ l,
          n'.attrs.lookup "label" = some l → p.1 ≠ trimQuotes l :=
        fun p hp n' hn' l hl => hacc p hp n' (List.mem_cons_of_mem n hn') l hl
      simp [List.foldl_cons, hlabel, List.filterMap_cons, labeledEntry,
        ih acc hnodup' hacc']
    | some label =>
      have hfresh : ∀ p ∈ acc, p.1 ≠ trimQuotes label :=
        fun p hp => hacc p hp n (List.mem_cons_self n rest) label hlabel
      have hcons :
          (trimQuotes label ::
            rest.filterMap
              (fun n => (n.attrs.lookup "label").map trimQuotes)).Nodup := by
        simpa [List.filterMap_cons, hlabel] using hnodup
      obtain ⟨hnotmem, hrestnodup⟩ := List.nodup_cons.mp hcons
      have hacc' : ∀ p ∈ acc ++ [(trimQuotes label, nodeDependencies g n)],
          ∀ n' ∈ rest, ∀ l, n'.attrs.lookup "label" = some l →
            p.1 ≠ trimQuotes l := by
        intro p hp n' hn' l hl
        rcases List.mem_append.mp hp with hp | hp
        · exact hacc p hp n' (List.mem_cons_of_mem n hn') l hl
        · have hpe : p = (trimQuotes label, nodeDependencies g n) := by
            simpa using hp
          subst hpe
          intro hcontra
          apply hnotmem
          have hcontra' : trimQuotes label = trimQuotes l := hcontra
          rw [hcontra']
          exact List.mem_filterMap.mpr ⟨n', hn', by simp [hl]⟩
      simp only [List.foldl_cons, hlabel,
        mapInsert_fresh acc _ _ hfresh,
        ih (acc ++ [(trimQuotes label, nodeDependencies g n)]) hrestnodup hacc']
      simp [List.filterMap_cons, labeledEntry, hlabel]

/-- Under distinct trimmed labels, the extracted map is one entry per
labeled node. -/
theorem extract_eq_filterMap (g : Graph)
    (hlabels : (g.nodes.filterMap
      (fun n => (n.attrs.lookup "label").map trimQuotes)).Nodup) :
    extractDirectDependencies g = g.nodes.filterMap (labeledEntry g) := by
  simpa [extractDirectDependencies] using
    extract_foldl_eq g g.nodes [] hlabels (by intro p hp; cases hp)

/-- The keys of the extracted entries are the trimmed node labels. -/
theorem keys_filterMap_labeledEntry (g : Graph) :
    (g.nodes.filterMap (labeledEntry g)).map Prod.fst =
      g.nodes.filterMap
        (fun n => (n.attrs.lookup "label").map trimQuotes) := by
  rw [List.map_filterMap]
  congr 1
  funext n
  cases h : n.attrs.lookup "label" <;> simp [labeledEntry, h]

/-- Association-list lookup finds the stored value when the keys are
distinct. -/
theorem lookup_of_nodup_keys {β : Type} :
    ∀ (l : List (String × β)) (k : String) (v : β),
      (l.map Prod.fst).Nodup → (k, v) ∈ l → l.lookup k = some v := by
  intro l
  induction l with
  | nil => intro k v _ h; cases h
  | cons p rest ih =>
    intro k v hnodup hmem
    rw [List.map_cons] at hnodup
    obtain ⟨hnotmem, hrest⟩ := List.nodup_cons.mp hnodup
    rcases List.mem_cons.mp hmem with rfl | hmem'
    · simp [List.lookup]
    · have hk : k ≠ p.1 := by
        intro hcontra
        apply hnotmem
        rw [hcontra] at hmem'
        exact List.mem_map.mpr ⟨(p.1, v), hmem', rfl⟩
      obtain ⟨a, b⟩ := p
      have hbeq : (k == a) = false := beq_false_of_ne hk
      simp only [List.lookup, hbeq]
      exact ih k v hrest hmem'

/-- Membership in a node's extracted dependency list is exactly having
a labeled one-edge neighbor (in either direction) with that trimmed
label. -/
theorem mem_nodeDependencies_iff (g : Graph)
    (hnames : (g.nodes.map GraphNode.name).Nodup) (node : GraphNode)
    (x : String) :
    x ∈ nodeDependencies g node ↔
      ∃ m ∈ g.nodes,
        (GraphEdge.mk node.name m.name ∈ g.edges ∨
          GraphEdge.mk m.name node.name ∈ g.edges) ∧
        ∃ lm, m.attrs.lookup "label" = some lm ∧ x = trimQuotes lm := by
  constructor
  · intro hx
    obtain ⟨d, hd, hdep⟩ := List.mem_filterMap.mp hx
    cases hfind : g.nodes.find? (fun n => n.name = d) with
    | none => simp [dependencyLabel, hfind] at hdep
    | some m =>
      have hm : m ∈ g.nodes := List.mem_of_find?_eq_some hfind
      have hmname : m.name = d := by simpa using List.find?_some hfind
      cases hlm : m.attrs.lookup "label" with
      | none => simp [dependencyLabel, hfind, hlm] at hdep
      | some lm =>
        have hx' : x = trimQuotes lm := by
          simp only [dependencyLabel, hfind, hlm, Option.some.injEq] at hdep
          exact hdep.symm
        refine ⟨m, hm, ?_, lm, hlm, hx'⟩
        rcases List.mem_append.mp hd with hdst | hsrc
        · left
          rw [edgeDestinations, List.mem_dedup] at hdst
          obtain ⟨e, hef, hed⟩ := List.mem_map.mp hdst
          obtain ⟨he, hes⟩ := List.mem_filter.mp hef
          have : e = GraphEdge.mk node.name m.name := by
            cases e
            simp only [GraphEdge.mk.injEq]
            exact ⟨by simpa using hes, by rw [hmname]; exact hed⟩
          rw [← this]
          exact he
        · right
          rw [edgeSources, List.mem_dedup] at hsrc
          obtain ⟨e, hef, hed⟩ := List.mem_map.mp hsrc
          obtain ⟨he, hes⟩ := List.mem_filter.mp hef
          have : e = GraphEdge.mk m.name node.name := by
            cases e
            simp only [GraphEdge.mk.injEq]
            exact ⟨by rw [hmname]; exact hed, by simpa using hes⟩
          rw [← this]
          exact he
  · intro hex
    obtain ⟨m, hm, hedge, lm, hlm, hx⟩ := hex
    apply List.mem_filterMap.mpr
    refine ⟨m.name, ?_, ?_⟩
    · rcases hedge with he | he
      · apply List.mem_append.mpr
        left
        rw [edgeDestinations, List.mem_dedup]
        exact List.mem_map.mpr
          ⟨GraphEdge.mk node.name m.name,
            List.mem_filter.mpr ⟨he, by simp⟩, rfl⟩
      · apply List.mem_append.mpr
        right
        rw [edgeSources, List.mem_dedup]
        exact List.mem_map.mpr
          ⟨GraphEdge.mk m.name node.name,
            List.mem_filter.mpr ⟨he, by simp⟩, rfl⟩
    · have hex2 : (g.nodes.find? (fun n => n.name = m.name)).isSome := by
        rw [List.find?_isSome]
        exact ⟨m, hm, by simp⟩
      obtain ⟨m', hm'⟩ := Option.isSome_iff_exists.mp hex2
      have hm'mem : m' ∈ g.nodes := List.mem_of_find?_eq_some hm'
      have hm'name : m'.name = m.name := by simpa using List.find?_some hm'
      have hm'eq : m' = m :=
        List.inj_on_of_nodup_map hnames hm'mem hm hm'name
      subst hm'eq
      simp [dependencyLabel, hm', hlm, hx]

/-- C2: a malformed graph yields an error (and the plan parser turns it
into a fatal session error), never a partial map; on a parsed graph
with distinct node names and distinct trimmed labels, every labeled
node contributes a map entry keyed by its quote-trimmed label whose
value holds exactly the trimmed labels of its one-edge neighbors,
outbound and inbound edges treated identically and unlabeled neighbors
skipped. -/
theorem dependency_graph_extraction :
    (∀ e, ∃ msg, findDirectDependencies (.error e) = .error msg) ∧
    (∀ e planShow, ∃ msg, parseTerraformPlan planShow (.error e) = .error msg) ∧
    ∀ (g : Graph),
      (g.nodes.map GraphNode.name).Nodup →
      (g.nodes.filterMap
        (fun n => (n.attrs.lookup "label").map trimQuotes)).Nodup →
      ∀ node ∈ g.nodes, ∀ label, node.attrs.lookup "label" = some label →
        (extractDirectDependencies g).lookup (trimQuotes label) =
          some (nodeDependencies g node) ∧
        ∀ x, x ∈ nodeDependencies g node ↔
          ∃ m ∈ g.nodes,
            (GraphEdge.mk node.name m.name ∈ g.edges ∨
              GraphEdge.mk m.name node.name ∈ g.edges) ∧
            ∃ lm, m.attrs.lookup "label" = some lm ∧ x = trimQuotes lm := by
  refine ⟨fun e => ⟨_, rfl⟩, fun e planShow => ?_, ?_⟩
  · cases planShow with
    | error msg => exact ⟨_, rfl⟩
    | ok plan =>
      exact ⟨"find dependencies: " ++ ("parse graph: " ++ e),
        by simp [parseTerraformPlan, findDirectDependencies]⟩
  · intro g hnames hlabels node hnode label hlabel
    constructor
    · rw [extract_eq_filterMap g hlabels]
      apply lookup_of_nodup_keys
      · rw [keys_filterMap_labeledEntry g]
        exact hlabels
      · exact List.mem_filterMap.mpr ⟨node, hnode, by simp [labeledEntry, hlabel]⟩
    · exact mem_nodeDependencies_iff g hnames node

/-- Witness for the graph-extraction theorem at a concrete two-node
graph. -/
theorem dependency_graph_extraction_witness :
    (extractDirectDependencies
        ⟨[⟨"a", [("label", "\"x.y\"")]⟩, ⟨"b", [("label", "\"p.q\"")]⟩],
          [⟨"a", "b"⟩]⟩).lookup "x.y" =
      some (nodeDependencies
        ⟨[⟨"a", [("label", "\"x.y\"")]⟩, ⟨"b", [("label", "\"p.q\"")]⟩],
          [⟨"a", "b"⟩]⟩ ⟨"a", [("label", "\"x.y\"")]⟩) :=
  (dependency_graph_extraction.2.2
    ⟨[⟨"a", [("label", "\"x.y\"")]⟩, ⟨"b", [("label", "\"p.q\"")]⟩],
      [⟨"a", "b"⟩]⟩
    (by decide) (by decide) ⟨"a", [("label", "\"x.y\"")]⟩ (by decide)
    "\"x.y\"" rfl).1

/-- The correlation fold appends exactly the rows `correlateStep`
keeps. -/
theorem correlate_foldl_eq (depMap : List (String × List String))
    (agents : List (String × Agent)) :
    ∀ (listing : List SourceResource) (acc : List Resource),
      listing.foldl
        (fun resources resource =>
          match correlateStep depMap agents resource with
          | none => resources
          | some out => resources ++ [out]) acc =
      acc ++ listing.filterMap (correlateStep depMap agents) := by
  intro listing
  induction listing with
  | nil => intro acc; simp
  | cons r rest ih =>
    intro acc
    cases hstep : correlateStep depMap agents r with
    | none => simp [List.foldl_cons, hstep, ih, List.filterMap_cons]
    | some out => simp [List.foldl_cons, hstep, ih, List.filterMap_cons]

/-- `correlateResources` is the per-row step mapped over the listing. -/
theorem correlateResources_eq_filterMap (listing : List SourceResource)
    (depMap : List (String × List String)) (agents : List (String × Agent)) :
    correlateResources listing depMap agents =
      listing.filterMap (correlateStep depMap agents) := by
  simpa [correlateResources] using correlate_foldl_eq depMap agents listing []

/-- When no dependency resolves in the agent table, the scan leaves the
agent unset. -/
theorem firstAgentMatch_eq_none (agents : List (String × Agent)) :
    ∀ (deps : List String), (∀ dep ∈ deps, agents.lookup dep = none) →
      firstAgentMatch deps agents = none := by
  intro deps
  induction deps with
  | nil => intro _; rfl
  | cons dep rest ih =>
    intro h
    have hdep := h dep (List.mem_cons_self dep rest)
    simp only [firstAgentMatch, hdep]
    exact ih fun d hd => h d (List.mem_cons_of_mem dep hd)

/-- The scan returns the first dependency, in list order, that resolves
in the agent table. -/
theorem firstAgentMatch_first (agents : List (String × Agent)) :
    ∀ (pre : List String) (dep : String) (post : List String) (a : Agent),
      (∀ d ∈ pre, agents.lookup d = none) → agents.lookup dep = some a →
      firstAgentMatch (pre ++ dep :: post) agents = some a := by
  intro pre
  induction pre with
  | nil =>
    intro dep post a _ hdep
    simp [firstAgentMatch, hdep]
  | cons d rest ih =>
    intro dep post a hpre hdep
    have hd := hpre d (List.mem_cons_self d rest)
    simp only [List.cons_append, firstAgentMatch, hd]
    exact ih dep post a (fun x hx => hpre x (List.mem_cons_of_mem d hx)) hdep

/-- C1: a non-agent listing row whose `type.name` key misses the
dependency map is dropped from the output entirely; a row whose key is
present appears with the first dependency (in the list's native order)
that resolves in the agent table attached, or with its agent unset when
none resolves. -/
theorem correlator_pruning_and_first_match :
    ∀ (listing : List SourceResource) (depMap : List (String × List String))
      (agents : List (String × Agent)) (r : SourceResource),
      r ∈ listing → r.type ≠ "coder_agent" →
      (depMap.lookup (resourceKey r) = none →
        ∀ out ∈ correlateResources listing depMap agents,
          ¬(out.type = r.type ∧ out.name = r.name)) ∧
      (∀ deps, depMap.lookup (resourceKey r) = some deps →
        Resource.mk r.name r.type (firstAgentMatch deps agents) ∈
          correlateResources listing depMap agents) ∧
      (∀ deps, (∀ dep ∈ deps, agents.lookup dep = none) →
        firstAgentMatch deps agents = none) ∧
      (∀ pre dep post a, (∀ d ∈ pre, agents.lookup d = none) →
        agents.lookup dep = some a →
        firstAgentMatch (pre ++ dep :: post) agents = some a) := by
  intro listing depMap agents r hr hty
  have hfm := correlateResources_eq_filterMap listing depMap agents
  refine ⟨?_, ?_, ?_, ?_⟩
  · intro hnone out hout hcontra
    obtain ⟨htype, hname⟩ := hcontra
    rw [hfm] at hout
    obtain ⟨r', hr', hstep⟩ := List.mem_filterMap.mp hout
    by_cases hag : r'.type = "coder_agent"
    · simp [correlateStep, hag] at hstep
    · cases hlk : depMap.lookup (resourceKey r') with
      | none => simp [correlateStep, hag, hlk] at hstep
      | some deps' =>
        simp only [correlateStep, hag, hlk, if_false, if_neg hag,
          Option.some.injEq] at hstep
        have hkey : resourceKey r' = resourceKey r := by
          have ht : r'.type = r.type := by rw [← hstep] at htype; exact htype
          have hn : r'.name = r.name := by rw [← hstep] at hname; exact hname
          simp [resourceKey, ht, hn]
        rw [hkey] at hlk
        rw [hnone] at hlk
        cases hlk
  · intro deps hdeps
    rw [hfm]
    exact List.mem_filterMap.mpr
      ⟨r, hr, by simp [correlateStep, hty, hdeps]⟩
  · exact fun deps h => firstAgentMatch_eq_none agents deps h
  · exact fun pre dep post a h1 h2 => firstAgentMatch_first agents pre dep post a h1 h2

/-- Witness for the correlator theorem at the concrete scenario from
the specification. -/
theorem correlator_pruning_and_first_match_witness :
    Resource.mk "web" "null_resource"
        (firstAgentMatch ["other.node", "coder_agent.dev"]
          [("coder_agent.dev", { id := "a1" })]) ∈
      correlateResources
        [⟨"null_resource", "web"⟩, ⟨"null_resource", "gone"⟩]
        [("null_resource.web", ["other.node", "coder_agent.dev"])]
        [("coder_agent.dev", { id := "a1" })] ∧
    firstAgentMatch (["other.node"] ++ "coder_agent.dev" :: [])
        [("coder_agent.dev", { id := "a1" })] = some { id := "a1" } :=
  ⟨(correlator_pruning_and_first_match
      [⟨"null_resource", "web"⟩, ⟨"null_resource", "gone"⟩]
      [("null_resource.web", ["other.node", "coder_agent.dev"])]
      [("coder_agent.dev", { id := "a1" })]
      ⟨"null_resource", "web"⟩ (by decide) (by decide)).2.1
      ["other.node", "coder_agent.dev"] rfl,
   (correlator_pruning_and_first_match
      [⟨"null_resource", "web"⟩, ⟨"null_resource", "gone"⟩]
      [("null_resource.web", ["other.node", "coder_agent.dev"])]
      [("coder_agent.dev", { id := "a1" })]
      ⟨"null_resource", "web"⟩ (by decide) (by decide)).2.2.2
      ["other.node"] "coder_agent.dev" [] { id := "a1" } (by decide) rfl⟩

/-- When every parameter has a recognized scheme, classification
succeeds and routes each value into exactly one destination, in
parameter order. -/
theorem classifyParameters_ok :
    ∀ (params : List ParameterValue) (env vars : List String),
      (∀ p ∈ params, recognizedScheme p.destinationScheme = true) →
      classifyParameters params env vars =
        .ok (env ++ (params.filter
              (fun p => p.destinationScheme = .environmentVariable)).map
                formatParameter,
            vars ++ (params.filter
              (fun p => p.destinationScheme = .provisionerVariable)).map
                formatParameter) := by
  intro params
  induction params with
  | nil => intro env vars _; simp [classifyParameters]
  | cons p rest ih =>
    intro env vars hrec
    have hp := hrec p (List.mem_cons_self p rest)
    have hrest : ∀ q ∈ rest, recognizedScheme q.destinationScheme = true :=
      fun q hq => hrec q (List.mem_cons_of_mem p hq)
    cases hscheme : p.destinationScheme with
    | environmentVariable =>
      simp [classifyParameters, hscheme, ih _ _ hrest, List.filter_cons,
        formatParameter]
    | provisionerVariable =>
      simp [classifyParameters, hscheme, ih _ _ hrest, List.filter_cons,
        formatParameter]
    | unrecognized v =>
      rw [hscheme] at hp
      simp [recognizedScheme] at hp

/-- A parameter with an unrecognized scheme makes classification
fail. -/
theorem classifyParameters_error :
    ∀ (params : List ParameterValue) (env vars : List String)
      (p : ParameterValue),
      p ∈ params → recognizedScheme p.destinationScheme = false →
      ∃ e, classifyParameters params env vars = .error e := by
  intro params
  induction params with
  | nil => intro env vars p hp; cases hp
  | cons q rest ih =>
    intro env vars p hp hbad
    rcases List.mem_cons.mp hp with rfl | hmem
    · cases hq : p.destinationScheme with
      | unrecognized v =>
        exact ⟨"unsupported parameter type for " ++ p.name,
          by simp [classifyParameters, hq]⟩
      | environmentVariable => rw [hq] at hbad; simp [recognizedScheme] at hbad
      | provisionerVariable => rw [hq] at hbad; simp [recognizedScheme] at hbad
    · cases hq : q.destinationScheme with
      | environmentVariable =>
        simpa [classifyParameters, hq] using ih _ _ p hmem hbad
      | provisionerVariable =>
        simpa [classifyParameters, hq] using ih _ _ p hmem hbad
      | unrecognized v =>
        exact ⟨"unsupported parameter type for " ++ q.name,
          by simp [classifyParameters, hq]⟩

/-- Every recognized parameter lands in exactly one of the two
destination filters. -/
theorem recognized_schemes_partition :
    ∀ (params : List ParameterValue),
      (∀ p ∈ params, recognizedScheme p.destinationScheme = true) →
      (params.filter
          (fun p => p.destinationScheme = ParameterDestination.environmentVariable)).length +
        (params.filter
          (fun p => p.destinationScheme = ParameterDestination.provisionerVariable)).length =
        params.length := by
  intro params
  induction params with
  | nil => intro _; rfl
  | cons p rest ih =>
    intro hrec
    have hp := hrec p (List.mem_cons_self p rest)
    have hrest : ∀ q ∈ rest, recognizedScheme q.destinationScheme = true :=
      fun q hq => hrec q (List.mem_cons_of_mem p hq)
    cases hscheme : p.destinationScheme with
    | environmentVariable =>
      have hlen := ih hrest
      simp [List.filter_cons, hscheme]
      omega
    | provisionerVariable =>
      have hlen := ih hrest
      simp [List.filter_cons, hscheme]
      omega
    | unrecognized v =>
      rw [hscheme] at hp
      simp [recognizedScheme] at hp

/-- C5: each ENVIRONMENT_VARIABLE parameter appears in the child
environment as `NAME=VALUE`, each PROVISIONER_VARIABLE parameter as a
`-var NAME=VALUE` argument pair in parameter order, each recognized
parameter is routed to exactly one of the two, and an unrecognized
scheme fails the session before any engine command is produced. -/
theorem parameter_routing :
    ∀ (dryRun : Bool) (transition : WorkspaceTransition)
      (planfilePath : String) (baseEnv : List String)
      (params : List ParameterValue),
      ((∀ p ∈ params, recognizedScheme p.destinationScheme = true) →
        engineInvocation dryRun transition planfilePath baseEnv params =
          .ok (baseEnv ++ (params.filter
                (fun p => p.destinationScheme = .environmentVariable)).map
                  formatParameter,
              (if dryRun then
                ["plan", "-no-color", "-input=false", "-json", "-refresh=true",
                  "-out=" ++ planfilePath]
              else
                ["apply", "-no-color", "-auto-approve", "-input=false",
                  "-json", "-refresh=true"])
                ++ (if transition = .destroy then ["-destroy"] else [])
                ++ (params.filter
                    (fun p => p.destinationScheme = .provisionerVariable)).flatMap
                      (fun p => ["-var", formatParameter p])) ∧
        (params.filter
            (fun p => p.destinationScheme = ParameterDestination.environmentVariable)).length +
          (params.filter
            (fun p => p.destinationScheme = ParameterDestination.provisionerVariable)).length =
          params.length) ∧
      (∀ p ∈ params, recognizedScheme p.destinationScheme = false →
        ∃ e, engineInvocation dryRun transition planfilePath baseEnv params =
          .error e) := by
  intro dryRun transition planfilePath baseEnv params
  constructor
  · intro hrec
    refine ⟨?_, recognized_schemes_partition params hrec⟩
    simp only [engineInvocation, classifyParameters_ok params baseEnv [] hrec,
      List.nil_append]
    cases dryRun <;> cases transition <;> simp [buildArgs, List.flatMap_map]
  · intro p hp hbad
    obtain ⟨e, he⟩ := classifyParameters_error params baseEnv [] p hp hbad
    exact ⟨e, by simp [engineInvocation, he]⟩

/-- Witness for the parameter-routing theorem at a concrete parameter
list. -/
theorem parameter_routing_witness :
    engineInvocation false .start "planfile" ["BASE=1"]
        [⟨"A", "1", .environmentVariable⟩, ⟨"B", "2", .provisionerVariable⟩] =
      .ok (["BASE=1"] ++
            (([⟨"A", "1", .environmentVariable⟩,
               ⟨"B", "2", .provisionerVariable⟩] :
                List ParameterValue).filter
              (fun p => p.destinationScheme = .environmentVariable)).map
                formatParameter,
          (if false then
            ["plan", "-no-color", "-input=false", "-json", "-refresh=true",
              "-out=" ++ "planfile"]
          else
            ["apply", "-no-color", "-auto-approve", "-input=false", "-json",
              "-refresh=true"])
            ++ (if WorkspaceTransition.start = .destroy then ["-destroy"]
                else [])
            ++ (([⟨"A", "1", .environmentVariable⟩,
                  ⟨"B", "2", .provisionerVariable⟩] :
                    List ParameterValue).filter
                (fun p => p.destinationScheme = .provisionerVariable)).flatMap
                  (fun p => ["-var", formatParameter p])) ∧
    ∃ e, engineInvocation false .start "planfile" []
        [⟨"C", "3", .unrecognized 7⟩] = .error e :=
  ⟨((parameter_routing false .start "planfile" ["BASE=1"]
      [⟨"A", "1", .environmentVariable⟩,
       ⟨"B", "2", .provisionerVariable⟩]).1 (by decide)).1,
   (parameter_routing false .start "planfile" []
      [⟨"C", "3", .unrecognized 7⟩]).2 ⟨"C", "3", .unrecognized 7⟩
     (List.mem_singleton.mpr rfl) rfl⟩

/-- C6: the engine command is `plan -no-color -input=false -json
-refresh=true -out=<planfile>` for a dry run and `apply -no-color
-auto-approve -input=false -json -refresh=true` for a real run, and a
DESTROY transition appends `-destroy` in both cases. -/
theorem command_line_construction :
    ∀ (transition : WorkspaceTransition) (planfilePath : String)
      (vars : List String),
      buildArgs true transition planfilePath vars =
        ["plan", "-no-color", "-input=false", "-json", "-refresh=true",
          "-out=" ++ planfilePath]
          ++ (if transition = .destroy then ["-destroy"] else [])
          ++ vars.flatMap (fun v => ["-var", v]) ∧
      buildArgs false transition planfilePath vars =
        ["apply", "-no-color", "-auto-approve", "-input=false", "-json",
          "-refresh=true"]
          ++ (if transition = .destroy then ["-destroy"] else [])
          ++ vars.flatMap (fun v => ["-var", v]) := by
  intro transition planfilePath vars
  cases transition <;> simp [buildArgs]

/-- C10: level strings are matched case-insensitively — any string
lowercasing to one of the five keywords converts to the corresponding
level, and exactly the strings outside that set (after lowercasing) are
rejected. -/
theorem log_level_case_insensitive :
    ∀ s : String,
      (toLower s = "trace" → convertTerraformLogLevel s = .ok .trace) ∧
      (toLower s = "debug" → convertTerraformLogLevel s = .ok .debug) ∧
      (toLower s = "info" → convertTerraformLogLevel s = .ok .info) ∧
      (toLower s = "warn" → convertTerraformLogLevel s = .ok .warn) ∧
      (toLower s = "error" → convertTerraformLogLevel s = .ok .error) ∧
      (toLower s ∉ (["trace", "debug", "info", "warn", "error"] : List String) →
        ∃ e, convertTerraformLogLevel s = .error e) := by
  intro s
  refine ⟨?_, ?_, ?_, ?_, ?_, ?_⟩ <;> intro h
  · simp [convertTerraformLogLevel, h]
  · simp [convertTerraformLogLevel, h]
  · simp [convertTerraformLogLevel, h]
  · simp [convertTerraformLogLevel, h]
  · simp [convertTerraformLogLevel, h]
  · simp only [List.mem_cons, List.not_mem_nil, not_or, or_false] at h
    simp only [convertTerraformLogLevel]
    split
    · exact absurd (by assumption) h.1
    · exact absurd (by assumption) h.2.1
    · exact absurd (by assumption) h.2.2.1
    · exact absurd (by assumption) h.2.2.2.1
    · exact absurd (by assumption) h.2.2.2.2
    · exact ⟨_, rfl⟩

/-- Witness for the case-insensitivity theorem at concrete level
strings. -/
theorem log_level_case_insensitive_witness :
    convertTerraformLogLevel "TrAcE" = .ok .trace ∧
    convertTerraformLogLevel "İNFO" = .ok .info ∧
    convertTerraformLogLevel "WARN" = .ok .warn ∧
    ∃ e, convertTerraformLogLevel "VERBOSE" = .error e :=
  ⟨(log_level_case_insensitive "TrAcE").1 (by decide),
   (log_level_case_insensitive "İNFO").2.2.1 (by decide),
   (log_level_case_insensitive "WARN").2.2.2.1 (by decide),
   (log_level_case_insensitive "VERBOSE").2.2.2.2.2 (by decide)⟩

/-- C8: a decoded record with a recognized level emits exactly one
message with that level and text, plus — when a diagnostic with a
recognized severity is attached — a second message with the
diagnostic's detail at its severity; a record with an unrecognized
level emits nothing, and the stream continues past any record. -/
theorem structured_log_relay :
    ∀ (log : TerraformProvisionLog) (rest : List TerraformProvisionLog),
      relayLogStream (log :: rest) = relayLogRecord log ++ relayLogStream rest ∧
      (∀ lvl, convertTerraformLogLevel log.level = .ok lvl →
        (log.diagnostic = none → relayLogRecord log = [(lvl, log.message)]) ∧
        ∀ d, log.diagnostic = some d →
          (∀ sev, convertTerraformLogLevel d.severity = .ok sev →
            relayLogRecord log = [(lvl, log.message), (sev, d.detail)]) ∧
          (∀ e, convertTerraformLogLevel d.severity = .error e →
            relayLogRecord log = [(lvl, log.message)])) ∧
      (∀ e, convertTerraformLogLevel log.level = .error e →
        relayLogRecord log = []) := by
  intro log rest
  refine ⟨?_, ?_, ?_⟩
  · simp [relayLogStream]
  · intro lvl hlvl
    refine ⟨fun hd => ?_, fun d hd => ⟨fun sev hsev => ?_, fun e hsev => ?_⟩⟩ <;>
      simp [relayLogRecord, hlvl, hd, *]
  · intro e he
    simp [relayLogRecord, he]

/-- Witness for the structured-log relay theorem at concrete records. -/
theorem structured_log_relay_witness :
    relayLogRecord ⟨"info", "hello", some ⟨"Error", "sum", "det"⟩⟩ =
      [(.info, "hello"), (.error, "det")] ∧
    relayLogRecord ⟨"bogus", "x", none⟩ = [] :=
  ⟨(((structured_log_relay ⟨"info", "hello", some ⟨"Error", "sum", "det"⟩⟩ []).2.1
      .info rfl).2 ⟨"Error", "sum", "det"⟩ rfl).1 .error rfl,
   (structured_log_relay ⟨"bogus", "x", none⟩ []).2.2
     "invalid log level bogus" rfl⟩

/-- C3: on a real run whose process fails, a readable state file yields
a `Complete` carrying exactly the file bytes, the non-empty error
message and an empty resource list, while an unreadable state file ends
the session with a propagated fatal error and no `Complete`. -/
theorem real_run_process_failure :
    ∀ (shutdownFired : Bool) (errorMessage : String)
      (statefileRead : Except String String)
      (parseResult : Except String Complete),
      errorMessage ≠ "" →
      (∀ content, statefileRead = .ok content →
        provisionRunOutcome false shutdownFired (some errorMessage)
            statefileRead parseResult =
          .ok { state := content, error := errorMessage, resources := [] } ∧
        errorMessage ≠ "") ∧
      (∀ e, statefileRead = .error e →
        ∃ msg, provisionRunOutcome false shutdownFired (some errorMessage)
            statefileRead parseResult = .error msg) := by
  intro shutdownFired errorMessage statefileRead parseResult hmsg
  constructor
  · intro content hread
    subst hread
    exact ⟨rfl, hmsg⟩
  · intro e hread
    subst hread
    exact ⟨_, rfl⟩

/-- Witness for the real-run failure theorem at concrete outcomes. -/
theorem real_run_process_failure_witness :
    provisionRunOutcome false false (some "exit status 1") (.ok "STATE")
        (.error "unused") =
      .ok { state := "STATE", error := "exit status 1", resources := [] } ∧
    ∃ msg, provisionRunOutcome false false (some "exit status 1")
        (.error "no such file") (.error "unused") = .error msg :=
  ⟨((real_run_process_failure false "exit status 1" (.ok "STATE")
      (.error "unused") (by decide)).1 "STATE" rfl).1,
   (real_run_process_failure false "exit status 1" (.error "no such file")
      (.error "unused") (by decide)).2 "no such file" rfl⟩

/-- C4: a dry-run process failure under an already-fired shutdown
signal is reported as a `Complete` with no state, an empty resource
list and the non-empty error message; the same failure without
shutdown propagates as a fatal error. -/
theorem dry_run_cancelled_failure :
    ∀ (errorMessage : String) (statefileRead : Except String String)
      (parseResult : Except String Complete),
      errorMessage ≠ "" →
      (provisionRunOutcome true true (some errorMessage) statefileRead
          parseResult =
        .ok { state := "", error := errorMessage, resources := [] } ∧
        errorMessage ≠ "") ∧
      (∃ msg, provisionRunOutcome true false (some errorMessage) statefileRead
          parseResult = .error msg) := by
  intro errorMessage statefileRead parseResult hmsg
  exact ⟨⟨rfl, hmsg⟩, ⟨_, rfl⟩⟩

/-- Witness for the dry-run cancellation theorem at concrete
outcomes. -/
theorem dry_run_cancelled_failure_witness :
    provisionRunOutcome true true (some "interrupted") (.ok "STATE")
        (.error "unused") =
      .ok { state := "", error := "interrupted", resources := [] } ∧
    ∃ msg, provisionRunOutcome true false (some "interrupted") (.ok "STATE")
        (.error "unused") = .error msg :=
  ⟨(dry_run_cancelled_failure "interrupted" (.ok "STATE") (.error "unused")
      (by decide)).1.1,
   (dry_run_cancelled_failure "interrupted" (.ok "STATE") (.error "unused")
      (by decide)).2⟩

/-- C9: an applied state without a values section completes with the
verbatim state bytes and an empty resource list, for every possible
graph outcome — so graph and attribute-decode failures are unreachable
there. -/
theorem apply_without_values_section :
    ∀ (statefileContent : String) (rawGraph : Except String Graph),
      parseTerraformApply (.ok statefileContent) (.ok none) rawGraph =
        .ok { state := statefileContent, error := "", resources := [] } := by
  intro statefileContent rawGraph
  rfl

/-- C7: the auth variant is instance-id exactly when an instance-id
attribute is present — with an empty placeholder on the plan path and
the attribute value on the apply path — and token (empty on the plan
path, the `token` attribute on the apply path) otherwise; the two
variants are distinct constructors. -/
theorem agent_auth_variants :
    ∀ (resource : ConfigResource) (attrs : AgentAttributes),
      ((resource.expressions.lookup "instance_id").isSome = true →
        (buildPlanAgent resource).auth = .instanceId "") ∧
      (resource.expressions.lookup "instance_id" = none →
        (buildPlanAgent resource).auth = .token "") ∧
      (attrs.instanceId ≠ "" →
        (buildApplyAgent attrs).auth = .instanceId attrs.instanceId) ∧
      (attrs.instanceId = "" →
        (buildApplyAgent attrs).auth = .token attrs.token) ∧
      (∀ t i, (AgentAuth.token t) ≠ (AgentAuth.instanceId i)) := by
  intro resource attrs
  refine ⟨?_, ?_, ?_, ?_, ?_⟩
  · intro h
    simp only [buildPlanAgent, h]
    rw [if_pos trivial]
  · intro h
    unfold buildPlanAgent
    rw [h]
    simp only [Option.isSome_none, Bool.false_eq_true, if_false]
    split <;> split <;> rfl
  · intro h
    simp [buildApplyAgent, h]
  · intro h
    simp [buildApplyAgent, h]
  · intro t i
    exact fun hcontra => AgentAuth.noConfusion hcontra

/-- Witness for the auth-variant theorem at concrete agent
definitions. -/
theorem agent_auth_variants_witness :
    (buildPlanAgent ⟨"coder_agent", "coder_agent.dev",
        [("instance_id", .other)]⟩).auth = .instanceId "" ∧
    (buildPlanAgent ⟨"coder_agent", "coder_agent.dev", []⟩).auth = .token "" ∧
    (buildApplyAgent { token := "tok", instanceId := "i-123" }).auth =
      .instanceId "i-123" ∧
    (buildApplyAgent { token := "tok" }).auth = .token "tok" :=
  ⟨(agent_auth_variants ⟨"coder_agent", "coder_agent.dev",
      [("instance_id", .other)]⟩ {}).1 rfl,
   (agent_auth_variants ⟨"coder_agent", "coder_agent.dev", []⟩ {}).2.1 rfl,
   (agent_auth_variants ⟨"coder_agent", "coder_agent.dev", []⟩
      { token := "tok", instanceId := "i-123" }).2.2.1 (by decide),
   (agent_auth_variants ⟨"coder_agent", "coder_agent.dev", []⟩
      { token := "tok" }).2.2.2.1 rfl⟩

end Coder
